import Mathlib

/-!
Verification development for the `ss_ref_bot` repository (Go).

Shallow embedding of the sheets layer (`sheets/sheets.go`) and of the bot's
reconciliation pipeline (`bot` package): the in-memory index cache, the
withdrawal-to-bonus reconciliation, the unique-code generator and the
periodic pending-balance repair job.

Modelling conventions:
* a spreadsheet cell (`interface{}` in Go) is a `Value`: absent/`nil`,
  string, integer (Go `int`/`int64`) or floating-point number;
* `float64` is modelled as `Rat` (the claims are about the arithmetic
  structure of the computations, not about rounding);
* Go maps are modelled as association lists with insert-at-front and
  first-match lookup, which is observationally equal for lookups;
* the external store I/O is passed in explicitly: reads are parameters
  (`Except String (List Row)` for a fallible fetch, `List Row` for a read
  whose failure aborts the operation trivially), writes are recorded in the
  returned state; the random source of `crypto/rand` is a total oracle
  `Nat → Fin 36`.
-/

namespace SSRefBot

/-- Cell value of the tabular store, as delivered by the range API
(Go `interface{}`: `nil`, `string`, `int`/`int64`, `float64`). -/
inductive Value where
  | null
  | str (s : String)
  | int (n : Int)
  | num (q : Rat)
  deriving DecidableEq

/-- Row of cells (Go `[]interface{}`). -/
abbrev Row := List Value

/-- Truncation of a rational toward zero, modelling Go's `int64(v)`
conversion from `float64`. -/
def ratTrunc (q : Rat) : Int := q.num.tdiv (q.den : Int)

/-- Whitespace test modelling `unicode.IsSpace` on the characters this
repository's data can contain (ASCII whitespace plus NEL and NBSP). -/
def isSpaceChar (c : Char) : Bool :=
  c.toNat == 32 || (9 ≤ c.toNat && c.toNat ≤ 13) || c.toNat == 133 || c.toNat == 160

/-- Go `strings.TrimSpace`: drop leading and trailing whitespace. -/
def trimSpace (s : String) : String :=
  String.mk (((s.data.dropWhile isSpaceChar).reverse.dropWhile isSpaceChar).reverse)

/-- Character-level model of Go `unicode.ToUpper` on the ranges relevant
here: ASCII letters and Cyrillic (`а`-`я` and `ё`). -/
def upperChar (c : Char) : Char :=
  if 97 ≤ c.toNat ∧ c.toNat ≤ 122 then Char.ofNat (c.toNat - 32)
  else if 1072 ≤ c.toNat ∧ c.toNat ≤ 1103 then Char.ofNat (c.toNat - 32)
  else if c.toNat = 1105 then Char.ofNat 1025
  else c

/-- Character-level model of Go `unicode.ToLower` on the same ranges. -/
def lowerChar (c : Char) : Char :=
  if 65 ≤ c.toNat ∧ c.toNat ≤ 90 then Char.ofNat (c.toNat + 32)
  else if 1040 ≤ c.toNat ∧ c.toNat ≤ 1071 then Char.ofNat (c.toNat + 32)
  else if c.toNat = 1025 then Char.ofNat 1105
  else c

/-- Go `strings.ToUpper`. -/
def toUpperStr (s : String) : String := String.mk (s.data.map upperChar)

/-- Go `strings.ToLower`. -/
def toLowerStr (s : String) : String := String.mk (s.data.map lowerChar)

/-- Code normalization used throughout `sheets.go`:
`strings.ToUpper(strings.TrimSpace(code))`. -/
def normalizeCode (s : String) : String := toUpperStr (trimSpace s)

/-- Decimal digit test. -/
def isDigitChar (c : Char) : Bool := 48 ≤ c.toNat && c.toNat ≤ 57

/-- Value of a digit string (assumes digits only). -/
def digitsToNat (cs : List Char) : Nat := cs.foldl (fun a c => a * 10 + (c.toNat - 48)) 0

/-- Model of Go `strconv.ParseInt(s, 10, 64)`: optional sign, decimal
digits, 64-bit signed range check; `none` on any other shape. -/
def parseIntStr (s : String) : Option Int :=
  match s.data with
  | [] => none
  | c :: cs =>
    let body : List Char := if c == '-' || c == '+' then cs else c :: cs
    if !body.isEmpty && body.all isDigitChar then
      let v : Int := if c == '-' then -(digitsToNat body : Int) else (digitsToNat body : Int)
      if -(2 ^ 63) ≤ v ∧ v ≤ 2 ^ 63 - 1 then some v else none
    else none

/-- Model of Go `strconv.ParseFloat(s, 64)` restricted to the plain decimal
forms (`[+-]digits[.digits]`) that this repository's data uses; exponent,
hexadecimal and inf/NaN forms are out of the model. -/
def parseFloatStr (s : String) : Option Rat :=
  match s.data with
  | [] => none
  | c :: cs =>
    let body : List Char := if c == '-' || c == '+' then cs else c :: cs
    let ip := body.takeWhile (fun d => d != '.')
    let rest := body.dropWhile (fun d => d != '.')
    let fp := rest.tail
    if (!ip.isEmpty || !fp.isEmpty) && ip.all isDigitChar && fp.all isDigitChar
        && !(fp.contains '.') then
      let mag : Rat := (digitsToNat ip : Rat) + (digitsToNat fp : Rat) / ((10 : Rat) ^ fp.length)
      some (if c == '-' then -mag else mag)
    else none

/-- Textual form of a cell used by `fmt.Sprintf` in `getStringValue`;
the exact formatting of numeric cells is abstract (it is deterministic and
never empty, which is all the code relies on). -/
def formatCell : Value → String
  | .null => ""
  | .str s => s
  | .int n => toString n
  | .num q => toString q

/-- Go helper `getStringValue` (sheets.go:924): empty for `nil`, otherwise
`strings.TrimSpace(fmt.Sprintf("%v", val))`. -/
def getStringValue : Value → String
  | .null => ""
  | v => trimSpace (formatCell v)

/-- Go helper `getIntValue` (sheets.go:931): typed switch with a string
fallback through `strconv.Atoi`, defaulting to `0`. -/
def getIntValue : Value → Int
  | .null => 0
  | .int n => n
  | .num q => ratTrunc q
  | .str v => if v = "" then 0 else (parseIntStr (trimSpace v)).getD 0

/-- Go helper `getFloatValue` (sheets.go:967): typed switch with a string
fallback through `strconv.ParseFloat`, defaulting to `0.0`. -/
def getFloatValue : Value → Rat
  | .null => 0
  | .num q => q
  | .int n => (n : Rat)
  | .str v => if v = "" then 0 else (parseFloatStr (trimSpace v)).getD 0

/-- Referrer record (sheets.go:31). -/
structure Referrer where
  ID : Int
  Username : String
  Code : String
  Wallet : String
  RefCount : Int
  PendingPayout : Rat
  PaidOut : Rat
  deriving DecidableEq

/-- Invited record (sheets.go:41). -/
structure Invited where
  UserID : Int
  RefCode : String
  deriving DecidableEq

/-- Referral ledger entry (sheets.go:46). -/
structure Referral where
  RefID : Int
  RefCode : String
  Profit : Rat
  DealID : String
  Bonus : Rat
  Date : String
  deriving DecidableEq

/-- Withdrawal event parsed from the upstream sheet (sheets.go:55). -/
structure Withdrawal where
  DealID : String
  UserID : Int
  Profit : Rat
  deriving DecidableEq

/-- Association-list model of a Go map insert (`m[k] = v`): the new binding
shadows any previous one. -/
def mapInsert {α β : Type} [DecidableEq α] (k : α) (v : β) (m : List (α × β)) : List (α × β) :=
  (k, v) :: m

/-- Association-list model of a Go map lookup (`m[k]`). -/
def mapLookup {α β : Type} [DecidableEq α] (k : α) : List (α × β) → Option β
  | [] => none
  | (k', v) :: rest => if k' = k then some v else mapLookup k rest

/-- In-memory index cache of `SheetsClient` (sheets.go:23-28). -/
structure CacheState where
  referrersByID : List (Int × Referrer)
  referrersByCode : List (String × Referrer)
  invitedByUserID : List (Int × Invited)
  existingDealIDs : List String
  deriving DecidableEq

/-- Combined process state: the cache plus the two sheets the claims write
to. Entries of the ledger sheet are recorded as appended `Referral`
records (their row placement is immaterial to every claim). -/
structure SyncState where
  cache : CacheState
  refsheet : List Row
  ledger : List Referral
  deriving DecidableEq

/-- ID-cell dispatch of `parseReferrerRow` (sheets.go:160-185): string via
`ParseInt`, numeric cells directly (floats truncated), `nil` falls to the
default branch whose `getStringValue` yields `""` and hence `nil`. -/
def parseIDCell : Value → Option Int
  | .str v => parseIntStr v
  | .int n => some n
  | .num q => some (ratTrunc q)
  | .null => none

/-- Go `parseReferrerRow` (sheets.go:155): rows shorter than 1 are
rejected, missing trailing cells leave the zero defaults. -/
def parseReferrerRow (row : Row) : Option Referrer :=
  if row.length < 1 then none else
  match parseIDCell (row.getD 0 .null) with
  | none => none
  | some id =>
    some { ID := id
           Username := if 1 < row.length then getStringValue (row.getD 1 .null) else ""
           Code := if 2 < row.length then getStringValue (row.getD 2 .null) else ""
           Wallet := if 3 < row.length then getStringValue (row.getD 3 .null) else ""
           RefCount := if 4 < row.length then getIntValue (row.getD 4 .null) else 0
           PendingPayout := if 5 < row.length then getFloatValue (row.getD 5 .null) else 0
           PaidOut := if 6 < row.length then getFloatValue (row.getD 6 .null) else 0 }

/-- Cache insertion shared by `loadReferrersCache` (sheets.go:141-148) and
`UpdateReferrer` (sheets.go:477-482): index by ID always, and by the
normalized code when the code is nonempty. -/
def upsertReferrerMaps (c : CacheState) (ref : Referrer) : CacheState :=
  { c with
    referrersByID := mapInsert ref.ID ref c.referrersByID
    referrersByCode :=
      if ref.Code ≠ "" then mapInsert (normalizeCode ref.Code) ref c.referrersByCode
      else c.referrersByCode }

/-- Go `loadReferrersCache` (sheets.go:116): on fetch error the maps are
untouched; on success both referrer maps are rebuilt from scratch. -/
def referrersLoadStep (acc : CacheState) (row : Row) : CacheState :=
  match parseReferrerRow row with
  | none => acc
  | some ref => upsertReferrerMaps acc ref

/-- Go `loadReferrersCache` loop body applied over the fetched rows. -/
def loadReferrersCache (fetch : Except String (List Row)) (c : CacheState) :
    CacheState × Option String :=
  match fetch with
  | .error e => (c, some e)
  | .ok rows =>
    let c0 := { c with referrersByID := [], referrersByCode := [] }
    (rows.foldl referrersLoadStep c0, none)

/-- ID-cell dispatch of `loadInvitedCache` (sheets.go:231-246); its default
branch skips the row. -/
def parseInvitedIDCell : Value → Option Int
  | .str v => parseIntStr v
  | .int n => some n
  | .num q => some (ratTrunc q)
  | .null => none

/-- Go `loadInvitedCache` (sheets.go:212): rebuilds the invited map; rows
shorter than 2 or with an unparseable user ID are skipped. -/
def invitedLoadStep (acc : CacheState) (row : Row) : CacheState :=
  if row.length < 2 then acc else
  match parseInvitedIDCell (row.getD 0 .null) with
  | none => acc
  | some userID =>
    { acc with invitedByUserID :=
        mapInsert userID ⟨userID, getStringValue (row.getD 1 .null)⟩ acc.invitedByUserID }

/-- Go `loadInvitedCache` loop body applied over the fetched rows. -/
def loadInvitedCache (fetch : Except String (List Row)) (c : CacheState) :
    CacheState × Option String :=
  match fetch with
  | .error e => (c, some e)
  | .ok rows =>
    let c0 := { c with invitedByUserID := [] }
    (rows.foldl invitedLoadStep c0, none)

/-- Go `loadDealIDsCache` (sheets.go:260): rebuilds the known-deal-id set
from column D of the ledger sheet. -/
def loadDealIDsCache (fetch : Except String (List Row)) (c : CacheState) :
    CacheState × Option String :=
  match fetch with
  | .error e => (c, some e)
  | .ok rows =>
    let c0 := { c with existingDealIDs := [] }
    (rows.foldl (fun acc row =>
      if 0 < row.length then
        let dealID := getStringValue (row.getD 0 .null)
        if dealID ≠ "" then { acc with existingDealIDs := dealID :: acc.existingDealIDs }
        else acc
      else acc) c0, none)

/-- Go `LoadCache` (sheets.go:87): the three sub-loads run in sequence and
the first error aborts the remainder. The three fetch results are the
reads the sub-loads would perform. -/
def LoadCache (fr fi fd : Except String (List Row)) (c : CacheState) :
    CacheState × Option String :=
  match loadReferrersCache fr c with
  | (c1, some e) => (c1, some e)
  | (c1, none) =>
    match loadInvitedCache fi c1 with
    | (c2, some e) => (c2, some e)
    | (c2, none) => loadDealIDsCache fd c2

/-- Go `GetReferrerByID` (sheets.go:286); the defensive copying is
implicit in a pure model. -/
def GetReferrerByID (c : CacheState) (userID : Int) : Option Referrer :=
  mapLookup userID c.referrersByID

/-- Go `GetInvitedByUserID` (sheets.go:550). -/
def GetInvitedByUserID (c : CacheState) (userID : Int) : Option Invited :=
  mapLookup userID c.invitedByUserID

/-- Go `GetReferrerByCode` (sheets.go:612): the query is normalized before
the lookup. -/
def GetReferrerByCode (c : CacheState) (code : String) : Option Referrer :=
  mapLookup (normalizeCode code) c.referrersByCode

/-- Go `GetExistingDealIDs` (sheets.go:646); the map copy is implicit. -/
def GetExistingDealIDs (c : CacheState) : List String := c.existingDealIDs

/-- Go `findFirstEmptyRow` (sheets.go:301), 0-based within the `A2:A`
region: index of the first row with no cells or an empty first cell,
or the row count when all are filled. -/
def findFirstEmptyRow (rows : List Row) : Nat :=
  match rows.findIdx? (fun row => row.isEmpty || getStringValue (row.getD 0 .null) == "") with
  | some i => i
  | none => rows.length

/-- Row write at a given index: overwrite an existing row or extend by one
(the index produced by `findFirstEmptyRow` is at most the row count). -/
def writeRowAt (rows : List Row) (i : Nat) (row : Row) : List Row :=
  if i < rows.length then rows.set i row else rows ++ [row]

/-- Cells written for a referrer row (sheets.go:352-362 and 439-449):
stringified ID, strings, the count as an integer cell and the two balances
as numeric cells. -/
def referrerToRow (r : Referrer) : Row :=
  [Value.str (toString r.ID), Value.str r.Username, Value.str r.Code,
   Value.str r.Wallet, Value.int r.RefCount, Value.num r.PendingPayout, Value.num r.PaidOut]

/-- Go `CreateReferrer` (sheets.go:324), success path, with the generated
code passed in: writes the new row into the referrers sheet and returns
the record. Note that the source updates no cache map here. -/
def CreateReferrer (userID : Int) (username : String) (code : String) (s : SyncState) :
    SyncState × Referrer :=
  let ref : Referrer :=
    { ID := userID, Username := username, Code := code, Wallet := ""
      RefCount := 0, PendingPayout := 0, PaidOut := 0 }
  let i := findFirstEmptyRow s.refsheet
  ({ s with refsheet := writeRowAt s.refsheet i (referrerToRow ref) }, ref)

/-- Row search of `UpdateReferrer` (sheets.go:404-424): first row whose
first cell is a string cell parsing to the wanted ID. -/
def findReferrerRowIdx (rows : List Row) (id : Int) : Option Nat :=
  rows.findIdx? (fun row =>
    match row.getD 0 .null with
    | .str v => parseIntStr v == some id
    | _ => false)

/-- Go `UpdateReferrer` (sheets.go:393): fails (returns `false`) when the
row is not found; on success overwrites the sheet row and upserts both
cache maps. -/
def UpdateReferrer (r : Referrer) (s : SyncState) : SyncState × Bool :=
  match findReferrerRowIdx s.refsheet r.ID with
  | none => (s, false)
  | some i =>
    ({ s with
        refsheet := s.refsheet.set i (referrerToRow r)
        cache := upsertReferrerMaps s.cache r }, true)

/-- Go `CreateReferral` (sheets.go:786): appends the ledger entry and adds
its deal id to the known-deal-id set. -/
def CreateReferral (ref : Referral) (s : SyncState) : SyncState :=
  { s with
    ledger := s.ledger ++ [ref]
    cache := { s.cache with existingDealIDs := ref.DealID :: s.cache.existingDealIDs } }

/-- Fixed alphabet of `generateUniqueCode` (sheets.go:490). -/
def charset : String := "ABCDEFGHIJKLMNOPQRSTUVWXYZ0123456789"

/-- Code length of `generateUniqueCode` (sheets.go:491). -/
def codeLength : Nat := 6

/-- Attempt budget of `generateUniqueCode` (sheets.go:493). -/
def maxAttempts : Nat := 100

/-- Candidate code built on a given attempt from the random oracle:
six draws from the 36-character alphabet (sheets.go:497-507). -/
def mkCode (supply : Nat → Fin 36) (attempt : Nat) : String :=
  String.mk ((List.range codeLength).map
    (fun j => charset.data.getD (supply (attempt * codeLength + j)).val 'A'))

/-- Go `codeExists` (sheets.go:527): scans the code column of the
referrers sheet directly (not the cache) for an equal cell. -/
def codeExists (code : String) (codeRows : List Row) : Bool :=
  codeRows.any (fun row => !row.isEmpty && getStringValue (row.getD 0 .null) == code)

/-- Retry loop of `generateUniqueCode` (sheets.go:496-521): try the
attempt's candidate, return it if the live check finds no collision,
otherwise retry with the remaining budget. -/
def genAttempts (supply : Nat → Fin 36) (codeRows : List Row) : Nat → Nat → Except String String
  | _, 0 => .error "could not generate a unique code after 100 attempts"
  | i, fuel + 1 =>
    let code := mkCode supply i
    if codeExists code codeRows then genAttempts supply codeRows (i + 1) fuel
    else .ok code

/-- Go `generateUniqueCode` (sheets.go:489). -/
def generateUniqueCode (supply : Nat → Fin 36) (codeRows : List Row) : Except String String :=
  genAttempts supply codeRows 0 maxAttempts

/-- Cleaning applied to a string user-ID cell in `GetNewWithdrawals`
(sheets.go:707-709): strip non-breaking spaces, ordinary spaces, then
trim. -/
def cleanIDString (v : String) : String :=
  trimSpace ((v.replace "\u00A0" "").replace " " "")

/-- Skip marker of `GetNewWithdrawals` (sheets.go:712): the lowered cell
text starts with the Russian word for "without". -/
def bezMark (s : String) : Bool := "без".isPrefixOf (toLowerStr s)

/-- User-ID-cell dispatch of `GetNewWithdrawals` (sheets.go:704-747). -/
def parseWithdrawalUserID : Value → Option Int
  | .str v =>
    let cleaned := cleanIDString v
    if cleaned = "" || bezMark cleaned then none
    else parseIntStr cleaned
  | .int n => some n
  | .num q => some (ratTrunc q)
  | .null => none

/-- Per-row body of the `GetNewWithdrawals` loop (sheets.go:679-780),
with the known-deal-id set the surrounding call copied at its start:
reject short rows, empty or already-known deal ids and unparseable user
ids; read the profit from index 3 when the row has at least 4 cells,
from index 2 when it has exactly 3, reject shorter rows; reject
non-positive profits. -/
def parseWithdrawalRow (known : String → Bool) (row : Row) : Option Withdrawal :=
  if row.length < 2 then none else
  let dealID := getStringValue (row.getD 0 .null)
  if dealID = "" then none else
  if known dealID then none else
  match parseWithdrawalUserID (row.getD 1 .null) with
  | none => none
  | some userID =>
    match (if 4 ≤ row.length then some (getFloatValue (row.getD 3 .null))
           else if 3 ≤ row.length then some (getFloatValue (row.getD 2 .null))
           else none) with
    | none => none
    | some profit =>
      if profit ≤ 0 then none
      else some { DealID := dealID, UserID := userID, Profit := profit }

/-- Go `GetNewWithdrawals` (sheets.go:660) over the fetched upstream rows:
the known-deal-id set is read from the cache once, before the scan. -/
def GetNewWithdrawals (c : CacheState) (rows : List Row) : List Withdrawal :=
  rows.filterMap (parseWithdrawalRow (fun d => (GetExistingDealIDs c).contains d))

/-- Go `processWithdrawal` (bot, part_000:698): skip (successfully) when
the user has no Invited record or the Invited code has no Referrer;
otherwise ledger the entry with a 10% bonus (Go computes
`withdrawal.Profit * 0.1`) and accrue the referrer's pending balance.
The `Bool` is the success flag (`true` = `nil` error). -/
def processWithdrawal (now : String) (s : SyncState) (w : Withdrawal) : SyncState × Bool :=
  match GetInvitedByUserID s.cache w.UserID with
  | none => (s, true)
  | some invited =>
    match GetReferrerByCode s.cache invited.RefCode with
    | none => (s, true)
    | some ref =>
      let bonus := w.Profit * (1 / 10 : Rat)
      let referral : Referral :=
        { RefID := w.UserID, RefCode := invited.RefCode, Profit := w.Profit
          DealID := w.DealID, Bonus := bonus, Date := now }
      let s1 := CreateReferral referral s
      UpdateReferrer { ref with PendingPayout := ref.PendingPayout + bonus } s1

/-- Loop of `syncWithdrawals` (bot, part_000:687-693): process each
withdrawal in upstream order; a failed event is logged and the loop
continues with the state the failing call left behind. -/
def processAll (now : String) (s : SyncState) (ws : List Withdrawal) : SyncState :=
  ws.foldl (fun st w => (processWithdrawal now st w).1) s

/-- Go `syncWithdrawals` (bot, part_000:663): one reconciliation pass over
the upstream rows. -/
def syncWithdrawals (now : String) (rows : List Row) (s : SyncState) : SyncState :=
  processAll now s (GetNewWithdrawals s.cache rows)

/-- Stored pending balance of a referrer row (column F, index 5), as read
by `UpdatePendingPayouts` (sheets.go:870-873). -/
def rowPending (row : Row) : Rat :=
  if 5 < row.length then getFloatValue (row.getD 5 .null) else 0

/-- Stored paid-out value of a referrer row (column G, index 6), as read
by `UpdatePendingPayouts` (sheets.go:876-879). -/
def rowPaidOut (row : Row) : Rat :=
  if 6 < row.length then getFloatValue (row.getD 6 .null) else 0

/-- Per-row body of the `UpdatePendingPayouts` loop (sheets.go:858-897):
skip empty rows and rows without an id; compute
`newPending = currentPending - paidOut` and emit a write of cell `F(i+2)`
exactly when the value changed. -/
def pendingUpdate (i : Nat) (row : Row) : Option (Nat × Rat) :=
  if row.length < 1 then none else
  if getStringValue (row.getD 0 .null) = "" then none else
  let currentPending := rowPending row
  let paidOut := rowPaidOut row
  let newPending := currentPending - paidOut
  if newPending ≠ currentPending then some (i + 2, newPending) else none

/-- Go `UpdatePendingPayouts` (sheets.go:841) over the fetched referrer
rows: the list of single-cell writes (absolute row number, new value)
collected for the batch update. -/
def UpdatePendingPayouts (rows : List Row) : List (Nat × Rat) :=
  rows.enum.filterMap (fun p => pendingUpdate p.1 p.2)

/-- Whether `UpdatePendingPayouts` issues its batch write call at all
(sheets.go:899-910): only when some row changed. -/
def batchWriteIssued (rows : List Row) : Bool := !(UpdatePendingPayouts rows).isEmpty

/-- Write of the repaired pending value back into cell F of a row (the
batch update targets `Рефоводы!F(i+2)`); shorter rows are padded with
empty cells up to column F. -/
def writePendingCell (row : Row) (v : Rat) : Row :=
  (row ++ List.replicate (6 - row.length) Value.null).set 5 (Value.num v)

end SSRefBot

namespace SSRefBot

/-! ### Normalization lemmas (towards claim C9) -/

theorem char_toNat_ofNat {n : Nat} (h : n < 55296) : (Char.ofNat n).toNat = n := by
  rw [Char.ofNat, dif_pos (Or.inl h)]
  rfl

theorem upperChar_idem (c : Char) : upperChar (upperChar c) = upperChar c := by
  unfold upperChar
  by_cases h1 : 97 ≤ c.toNat ∧ c.toNat ≤ 122
  · have ht : (Char.ofNat (c.toNat - 32)).toNat = c.toNat - 32 := char_toNat_ofNat (by omega)
    rw [if_pos h1]
    rw [if_neg (by rw [ht]; omega), if_neg (by rw [ht]; omega), if_neg (by rw [ht]; omega)]
  · rw [if_neg h1]
    by_cases h2 : 1072 ≤ c.toNat ∧ c.toNat ≤ 1103
    · have ht : (Char.ofNat (c.toNat - 32)).toNat = c.toNat - 32 := char_toNat_ofNat (by omega)
      rw [if_pos h2]
      rw [if_neg (by rw [ht]; omega), if_neg (by rw [ht]; omega), if_neg (by rw [ht]; omega)]
    · rw [if_neg h2]
      by_cases h3 : c.toNat = 1105
      · have ht : (Char.ofNat 1025).toNat = 1025 := char_toNat_ofNat (by omega)
        rw [if_pos h3]
        rw [if_neg (by rw [ht]; omega), if_neg (by rw [ht]; omega), if_neg (by rw [ht]; omega)]
      · rw [if_neg h3, if_neg h1, if_neg h2, if_neg h3]

theorem isSpaceChar_iff (c : Char) :
    isSpaceChar c = true ↔
      (c.toNat = 32 ∨ (9 ≤ c.toNat ∧ c.toNat ≤ 13) ∨ c.toNat = 133 ∨ c.toNat = 160) := by
  simp [isSpaceChar]
  omega

theorem isSpaceChar_upperChar (c : Char) : isSpaceChar (upperChar c) = isSpaceChar c := by
  unfold upperChar
  by_cases h1 : 97 ≤ c.toNat ∧ c.toNat ≤ 122
  · have ht : (Char.ofNat (c.toNat - 32)).toNat = c.toNat - 32 := char_toNat_ofNat (by omega)
    rw [if_pos h1]
    rw [Bool.eq_iff_iff, isSpaceChar_iff, isSpaceChar_iff, ht]
    omega
  · rw [if_neg h1]
    by_cases h2 : 1072 ≤ c.toNat ∧ c.toNat ≤ 1103
    · have ht : (Char.ofNat (c.toNat - 32)).toNat = c.toNat - 32 := char_toNat_ofNat (by omega)
      rw [if_pos h2]
      rw [Bool.eq_iff_iff, isSpaceChar_iff, isSpaceChar_iff, ht]
      omega
    · rw [if_neg h2]
      by_cases h3 : c.toNat = 1105
      · have ht : (Char.ofNat 1025).toNat = 1025 := char_toNat_ofNat (by omega)
        rw [if_pos h3]
        rw [Bool.eq_iff_iff, isSpaceChar_iff, isSpaceChar_iff, ht]
        omega
      · rw [if_neg h3]

theorem dropWhile_dropWhile {α : Type} (p : α → Bool) (l : List α) :
    (l.dropWhile p).dropWhile p = l.dropWhile p := by
  induction l with
  | nil => rfl
  | cons a t ih =>
    by_cases h : p a = true
    · simp [List.dropWhile_cons, h, ih]
    · simp [List.dropWhile_cons, h]

theorem dropWhile_head_false {α : Type} (p : α → Bool) (l : List α) :
    ∀ h, (l.dropWhile p).head? = some h → p h = false := by
  induction l with
  | nil => intro h hh; simp at hh
  | cons a t ih =>
    intro h hh
    by_cases ha : p a = true
    · rw [List.dropWhile_cons, if_pos ha] at hh
      exact ih h hh
    · rw [List.dropWhile_cons, if_neg ha] at hh
      simp at hh
      subst hh
      simpa using ha

theorem dropWhile_eq_self_of_head {α : Type} (p : α → Bool) (l : List α)
    (hl : ∀ h, l.head? = some h → p h = false) : l.dropWhile p = l := by
  cases l with
  | nil => rfl
  | cons a t =>
    have := hl a (by simp)
    rw [List.dropWhile_cons, if_neg (by simp [this])]

theorem getLast?_dropWhile {α : Type} (p : α → Bool) (l : List α)
    (hne : l.dropWhile p ≠ []) : (l.dropWhile p).getLast? = l.getLast? := by
  induction l with
  | nil => simp at hne
  | cons a t ih =>
    by_cases ha : p a = true
    · rw [List.dropWhile_cons, if_pos ha] at hne ⊢
      have ht : t ≠ [] := by
        intro h
        rw [h] at hne
        simp at hne
      rw [ih hne]
      cases t with
      | nil => exact absurd rfl ht
      | cons b u => rw [List.getLast?_cons_cons]
    · rw [List.dropWhile_cons, if_neg ha]

theorem trim_twice {α : Type} (p : α → Bool) (l : List α) :
    ((((l.dropWhile p).reverse.dropWhile p).reverse.dropWhile p).reverse.dropWhile p).reverse
      = ((l.dropWhile p).reverse.dropWhile p).reverse := by
  have hclean : ∀ h,
      (((l.dropWhile p).reverse.dropWhile p).reverse).head? = some h → p h = false := by
    intro h hh
    rw [List.head?_reverse] at hh
    have hwne : (l.dropWhile p).reverse.dropWhile p ≠ [] := by
      intro hnil
      rw [hnil] at hh
      simp at hh
    rw [getLast?_dropWhile p (l.dropWhile p).reverse hwne, List.getLast?_reverse] at hh
    exact dropWhile_head_false p l h hh
  rw [dropWhile_eq_self_of_head p _ hclean, List.reverse_reverse, dropWhile_dropWhile]

theorem trimSpace_idem (s : String) : trimSpace (trimSpace s) = trimSpace s := by
  exact congrArg String.mk (trim_twice isSpaceChar s.data)

theorem toUpperStr_idem (s : String) : toUpperStr (toUpperStr s) = toUpperStr s := by
  apply congrArg String.mk
  show (s.data.map upperChar).map upperChar = s.data.map upperChar
  rw [List.map_map]
  exact List.map_congr_left (fun c _ => upperChar_idem c)

theorem isSpaceChar_comp_upperChar : (isSpaceChar ∘ upperChar) = isSpaceChar :=
  funext isSpaceChar_upperChar

theorem trimSpace_toUpperStr (s : String) :
    trimSpace (toUpperStr s) = toUpperStr (trimSpace s) := by
  apply congrArg String.mk
  show (((s.data.map upperChar).dropWhile isSpaceChar).reverse.dropWhile isSpaceChar).reverse
      = (((s.data.dropWhile isSpaceChar).reverse.dropWhile isSpaceChar).reverse).map upperChar
  rw [List.dropWhile_map, isSpaceChar_comp_upperChar, ← List.map_reverse, List.dropWhile_map,
    isSpaceChar_comp_upperChar, ← List.map_reverse]

theorem normalizeCode_idem (s : String) : normalizeCode (normalizeCode s) = normalizeCode s := by
  unfold normalizeCode
  rw [trimSpace_toUpperStr, toUpperStr_idem, trimSpace_idem]

/-- Claim C9: for every string `c`, `GetReferrerByCode c` returns the same
result as `GetReferrerByCode` applied to the trimmed, uppercased form of
`c` — the query is normalized before the lookup, and normalization is
idempotent, so case or surrounding-whitespace variants of a code query
the same index key; codes are indexed under their normalized form on
reload and on upsert (see `upsertReferrerMaps`). -/
theorem getReferrerByCode_normalized (c : CacheState) (code : String) :
    GetReferrerByCode c code = GetReferrerByCode c (normalizeCode code) := by
  unfold GetReferrerByCode
  rw [normalizeCode_idem]

end SSRefBot

namespace SSRefBot

/-! ### Association-list map lemmas -/

theorem mapLookup_insert_self {α β : Type} [DecidableEq α] (k : α) (v : β) (m : List (α × β)) :
    mapLookup k (mapInsert k v m) = some v := by
  simp [mapInsert, mapLookup]

theorem mapLookup_insert_ne {α β : Type} [DecidableEq α] {k k' : α} (h : k' ≠ k) (v : β)
    (m : List (α × β)) : mapLookup k (mapInsert k' v m) = mapLookup k m := by
  simp [mapInsert, mapLookup, h]

theorem mapLookup_mem {α β : Type} [DecidableEq α] {k : α} {v : β} {m : List (α × β)}
    (h : mapLookup k m = some v) : (k, v) ∈ m := by
  induction m with
  | nil => simp [mapLookup] at h
  | cons p rest ih =>
    obtain ⟨k', v'⟩ := p
    rw [mapLookup] at h
    by_cases hk : k' = k
    · rw [if_pos hk] at h
      injection h with h
      subst hk
      subst h
      exact List.mem_cons_self _ _
    · rw [if_neg hk] at h
      exact List.mem_cons_of_mem _ (ih h)

/-! ### Reconciliation-pass lemmas (towards claim C1) -/

/-- Consistency of the by-code index: every binding maps the normalized
form of its referrer's stored code. Any cache built by `loadReferrersCache`
or updated by `upsertReferrerMaps` has this shape. -/
def codeConsistent (c : CacheState) : Prop :=
  ∀ p ∈ c.referrersByCode, normalizeCode p.2.Code = p.1

/-- Skip condition of `processWithdrawal`: no Invited record for the user,
or no referrer under the Invited record's code. -/
def skipsW (st : SyncState) (w : Withdrawal) : Prop :=
  GetInvitedByUserID st.cache w.UserID = none ∨
  ∃ i, GetInvitedByUserID st.cache w.UserID = some i ∧
    GetReferrerByCode st.cache i.RefCode = none

theorem CreateReferral_deals (e : Referral) (s : SyncState) :
    (CreateReferral e s).cache.existingDealIDs = e.DealID :: s.cache.existingDealIDs := rfl

theorem CreateReferral_ledger (e : Referral) (s : SyncState) :
    (CreateReferral e s).ledger = s.ledger ++ [e] := rfl

theorem CreateReferral_invited (e : Referral) (s : SyncState) :
    (CreateReferral e s).cache.invitedByUserID = s.cache.invitedByUserID := rfl

theorem CreateReferral_byCode (e : Referral) (s : SyncState) :
    (CreateReferral e s).cache.referrersByCode = s.cache.referrersByCode := rfl

theorem UpdateReferrer_ledger (r : Referrer) (s : SyncState) :
    (UpdateReferrer r s).1.ledger = s.ledger := by
  unfold UpdateReferrer
  cases hfi : findReferrerRowIdx s.refsheet r.ID with
  | none => rfl
  | some i => rfl

theorem UpdateReferrer_invited (r : Referrer) (s : SyncState) :
    (UpdateReferrer r s).1.cache.invitedByUserID = s.cache.invitedByUserID := by
  unfold UpdateReferrer
  cases hfi : findReferrerRowIdx s.refsheet r.ID with
  | none => rfl
  | some i => rfl

theorem UpdateReferrer_deals (r : Referrer) (s : SyncState) :
    (UpdateReferrer r s).1.cache.existingDealIDs = s.cache.existingDealIDs := by
  unfold UpdateReferrer
  cases hfi : findReferrerRowIdx s.refsheet r.ID with
  | none => rfl
  | some i => rfl

theorem UpdateReferrer_byCode (r : Referrer) (s : SyncState) :
    (UpdateReferrer r s).1.cache.referrersByCode = s.cache.referrersByCode ∨
    (r.Code ≠ "" ∧ (UpdateReferrer r s).1.cache.referrersByCode
      = mapInsert (normalizeCode r.Code) r s.cache.referrersByCode) := by
  unfold UpdateReferrer
  cases hfi : findReferrerRowIdx s.refsheet r.ID with
  | none => exact Or.inl rfl
  | some i =>
    by_cases hc : r.Code ≠ ""
    · exact Or.inr ⟨hc, by simp only [upsertReferrerMaps, if_pos hc]⟩
    · exact Or.inl (by simp only [upsertReferrerMaps, if_neg hc])

theorem processWithdrawal_skip {now : String} {st : SyncState} {w : Withdrawal}
    (h : skipsW st w) : processWithdrawal now st w = (st, true) := by
  rcases h with h | ⟨i, hi, hr⟩
  · simp [processWithdrawal, h]
  · simp [processWithdrawal, hi, hr]

theorem processWithdrawal_invited (now : String) (st : SyncState) (w : Withdrawal) :
    (processWithdrawal now st w).1.cache.invitedByUserID = st.cache.invitedByUserID := by
  cases hInv : GetInvitedByUserID st.cache w.UserID with
  | none => simp [processWithdrawal, hInv]
  | some i =>
    cases hRef : GetReferrerByCode st.cache i.RefCode with
    | none => simp [processWithdrawal, hInv, hRef]
    | some ref =>
      simp only [processWithdrawal, hInv, hRef]
      rw [UpdateReferrer_invited, CreateReferral_invited]

theorem processWithdrawal_deals_mono {now : String} {st : SyncState} {w : Withdrawal}
    {d : String} (h : d ∈ st.cache.existingDealIDs) :
    d ∈ (processWithdrawal now st w).1.cache.existingDealIDs := by
  cases hInv : GetInvitedByUserID st.cache w.UserID with
  | none => simpa [processWithdrawal, hInv] using h
  | some i =>
    cases hRef : GetReferrerByCode st.cache i.RefCode with
    | none => simpa [processWithdrawal, hInv, hRef] using h
    | some ref =>
      simp only [processWithdrawal, hInv, hRef]
      rw [UpdateReferrer_deals, CreateReferral_deals]
      exact List.mem_cons_of_mem _ h

theorem processWithdrawal_not_skip_marks {now : String} {st : SyncState} {w : Withdrawal}
    (h : ¬ skipsW st w) :
    w.DealID ∈ (processWithdrawal now st w).1.cache.existingDealIDs := by
  cases hInv : GetInvitedByUserID st.cache w.UserID with
  | none => exact absurd (Or.inl hInv) h
  | some i =>
    cases hRef : GetReferrerByCode st.cache i.RefCode with
    | none => exact absurd (Or.inr ⟨i, hInv, hRef⟩) h
    | some ref =>
      simp only [processWithdrawal, hInv, hRef]
      rw [UpdateReferrer_deals, CreateReferral_deals]
      exact List.mem_cons_self _ _

theorem processWithdrawal_code_none {now : String} {st : SyncState} {w : Withdrawal}
    {k : String} (hcc : codeConsistent st.cache)
    (h : mapLookup k st.cache.referrersByCode = none) :
    mapLookup k (processWithdrawal now st w).1.cache.referrersByCode = none := by
  cases hInv : GetInvitedByUserID st.cache w.UserID with
  | none => simpa [processWithdrawal, hInv] using h
  | some i =>
    cases hRef : GetReferrerByCode st.cache i.RefCode with
    | none => simpa [processWithdrawal, hInv, hRef] using h
    | some ref =>
      simp only [processWithdrawal, hInv, hRef]
      rcases UpdateReferrer_byCode
          { ref with PendingPayout := ref.PendingPayout + w.Profit * (1 / 10 : Rat) }
          (CreateReferral
            { RefID := w.UserID, RefCode := i.RefCode, Profit := w.Profit
              DealID := w.DealID, Bonus := w.Profit * (1 / 10 : Rat), Date := now } st) with
        hb | ⟨hcode, hb⟩
      · rw [hb, CreateReferral_byCode]
        exact h
      · rw [hb, CreateReferral_byCode]
        have hmem := mapLookup_mem hRef
        have hkey : normalizeCode ref.Code = normalizeCode i.RefCode := hcc _ hmem
        have hne : normalizeCode
            ({ ref with PendingPayout := ref.PendingPayout + w.Profit * (1 / 10 : Rat) }
              : Referrer).Code ≠ k := by
          intro hk
          have hk2 : normalizeCode ref.Code = k := hk
          rw [hkey] at hk2
          have hRef2 : mapLookup (normalizeCode i.RefCode) st.cache.referrersByCode
              = some ref := hRef
          rw [hk2] at hRef2
          rw [hRef2] at h
          exact Option.noConfusion h
        rw [mapLookup_insert_ne hne]
        exact h

theorem processWithdrawal_cc {now : String} {st : SyncState} {w : Withdrawal}
    (hcc : codeConsistent st.cache) : codeConsistent (processWithdrawal now st w).1.cache := by
  cases hInv : GetInvitedByUserID st.cache w.UserID with
  | none => simpa [processWithdrawal, hInv] using hcc
  | some i =>
    cases hRef : GetReferrerByCode st.cache i.RefCode with
    | none => simpa [processWithdrawal, hInv, hRef] using hcc
    | some ref =>
      simp only [processWithdrawal, hInv, hRef]
      rcases UpdateReferrer_byCode
          { ref with PendingPayout := ref.PendingPayout + w.Profit * (1 / 10 : Rat) }
          (CreateReferral
            { RefID := w.UserID, RefCode := i.RefCode, Profit := w.Profit
              DealID := w.DealID, Bonus := w.Profit * (1 / 10 : Rat), Date := now } st) with
        hb | ⟨hcode, hb⟩
      · intro p hp
        rw [hb, CreateReferral_byCode] at hp
        exact hcc p hp
      · intro p hp
        rw [hb, CreateReferral_byCode] at hp
        simp only [mapInsert] at hp
        rcases List.mem_cons.mp hp with rfl | hp
        · rfl
        · exact hcc p hp

theorem processAll_cons (now : String) (s : SyncState) (w : Withdrawal)
    (ws : List Withdrawal) :
    processAll now s (w :: ws) = processAll now (processWithdrawal now s w).1 ws := rfl

theorem processAll_deals_mono {now : String} {d : String} :
    ∀ (ws : List Withdrawal) (s : SyncState), d ∈ s.cache.existingDealIDs →
      d ∈ (processAll now s ws).cache.existingDealIDs := by
  intro ws
  induction ws with
  | nil => intro s h; exact h
  | cons w rest ih =>
    intro s h
    rw [processAll_cons]
    exact ih _ (processWithdrawal_deals_mono h)

theorem processAll_invited (now : String) :
    ∀ (ws : List Withdrawal) (s : SyncState),
      (processAll now s ws).cache.invitedByUserID = s.cache.invitedByUserID := by
  intro ws
  induction ws with
  | nil => intro s; rfl
  | cons w rest ih =>
    intro s
    rw [processAll_cons, ih, processWithdrawal_invited]

theorem processAll_cc {now : String} :
    ∀ (ws : List Withdrawal) (s : SyncState), codeConsistent s.cache →
      codeConsistent (processAll now s ws).cache := by
  intro ws
  induction ws with
  | nil => intro s h; exact h
  | cons w rest ih =>
    intro s h
    rw [processAll_cons]
    exact ih _ (processWithdrawal_cc h)

theorem processAll_code_none {now : String} {k : String} :
    ∀ (ws : List Withdrawal) (s : SyncState), codeConsistent s.cache →
      mapLookup k s.cache.referrersByCode = none →
      mapLookup k (processAll now s ws).cache.referrersByCode = none := by
  intro ws
  induction ws with
  | nil => intro s _ h; exact h
  | cons w rest ih =>
    intro s hcc h
    rw [processAll_cons]
    exact ih _ (processWithdrawal_cc hcc) (processWithdrawal_code_none hcc h)

theorem skipsW_processAll {now : String} {w : Withdrawal} :
    ∀ (ws : List Withdrawal) (s : SyncState), codeConsistent s.cache →
      skipsW s w → skipsW (processAll now s ws) w := by
  intro ws
  induction ws with
  | nil => intro s _ h; exact h
  | cons w0 rest ih =>
    intro s hcc h
    rw [processAll_cons]
    apply ih _ (processWithdrawal_cc hcc)
    rcases h with h | ⟨i, hi, hr⟩
    · left
      unfold GetInvitedByUserID at h ⊢
      rw [processWithdrawal_invited]
      exact h
    · right
      refine ⟨i, ?_, ?_⟩
      · unfold GetInvitedByUserID at hi ⊢
        rw [processWithdrawal_invited]
        exact hi
      · unfold GetReferrerByCode at hr ⊢
        exact processWithdrawal_code_none hcc hr

theorem processAll_skip_all {now : String} :
    ∀ (ws : List Withdrawal) (s : SyncState), (∀ w ∈ ws, skipsW s w) →
      processAll now s ws = s := by
  intro ws
  induction ws with
  | nil => intro s _; rfl
  | cons w rest ih =>
    intro s h
    rw [processAll_cons,
      congrArg Prod.fst (processWithdrawal_skip (h w (List.mem_cons_self _ _)))]
    exact ih s (fun w' hw' => h w' (List.mem_cons_of_mem _ hw'))

theorem processAll_covers {now : String} :
    ∀ (ws : List Withdrawal) (s : SyncState), codeConsistent s.cache →
      ∀ w ∈ ws, w.DealID ∈ (processAll now s ws).cache.existingDealIDs ∨
        skipsW (processAll now s ws) w := by
  intro ws
  induction ws with
  | nil => intro s _ w hw; simp at hw
  | cons w0 rest ih =>
    intro s hcc w hw
    rw [processAll_cons]
    rcases List.mem_cons.mp hw with rfl | hw
    · by_cases hskip : skipsW s w
      · right
        rw [congrArg Prod.fst (processWithdrawal_skip hskip)]
        exact skipsW_processAll rest s hcc hskip
      · left
        exact processAll_deals_mono rest _ (processWithdrawal_not_skip_marks hskip)
    · exact ih _ (processWithdrawal_cc hcc) w hw

/-- Number of ledger entries carrying a given deal id. -/
def countDeal (d : String) (l : List Referral) : Nat :=
  (l.filter (fun e => e.DealID == d)).length

theorem processWithdrawal_ledger (now : String) (st : SyncState) (w : Withdrawal) :
    (processWithdrawal now st w).1.ledger = st.ledger ∨
    ∃ e : Referral, e.DealID = w.DealID ∧ e.Profit = w.Profit ∧
      e.Bonus = w.Profit * (1 / 10 : Rat) ∧
      (processWithdrawal now st w).1.ledger = st.ledger ++ [e] := by
  cases hInv : GetInvitedByUserID st.cache w.UserID with
  | none => exact Or.inl (by simp [processWithdrawal, hInv])
  | some i =>
    cases hRef : GetReferrerByCode st.cache i.RefCode with
    | none => exact Or.inl (by simp [processWithdrawal, hInv, hRef])
    | some ref =>
      right
      refine ⟨{ RefID := w.UserID, RefCode := i.RefCode, Profit := w.Profit
                DealID := w.DealID, Bonus := w.Profit * (1 / 10 : Rat), Date := now },
              rfl, rfl, rfl, ?_⟩
      simp only [processWithdrawal, hInv, hRef]
      rw [UpdateReferrer_ledger, CreateReferral_ledger]

theorem countDeal_append_singleton (d : String) (l : List Referral) (e : Referral) :
    countDeal d (l ++ [e]) = countDeal d l + (if e.DealID = d then 1 else 0) := by
  unfold countDeal
  rw [List.filter_append, List.length_append]
  by_cases h : e.DealID = d <;> simp [h]

theorem processWithdrawal_countDeal (now : String) (st : SyncState) (w : Withdrawal)
    (d : String) :
    countDeal d (processWithdrawal now st w).1.ledger
      ≤ countDeal d st.ledger + (if w.DealID = d then 1 else 0) := by
  rcases processWithdrawal_ledger now st w with h | ⟨e, he, _, _, h⟩
  · rw [h]
    exact Nat.le_add_right _ _
  · rw [h, countDeal_append_singleton, he]

theorem processAll_countDeal {now : String} {d : String} :
    ∀ (ws : List Withdrawal) (s : SyncState),
      countDeal d (processAll now s ws).ledger
        ≤ countDeal d s.ledger + (ws.map Withdrawal.DealID).count d := by
  intro ws
  induction ws with
  | nil => intro s; simp [processAll, List.count_nil]
  | cons w rest ih =>
    intro s
    rw [processAll_cons, List.map_cons, List.count_cons]
    have h1 := ih (processWithdrawal now s w).1
    have h2 := processWithdrawal_countDeal now s w d
    have h3 : (if (w.DealID == d) = true then 1 else 0)
        = (if w.DealID = d then 1 else 0) := by
      by_cases hd : w.DealID = d <;> simp [hd]
    rw [h3]
    omega

theorem parseWithdrawalRow_transfer {known : String → Bool} {w : Withdrawal} {row : Row}
    (h : parseWithdrawalRow known row = some w) :
    known w.DealID = false ∧
      ∀ known' : String → Bool, known' w.DealID = false →
        parseWithdrawalRow known' row = some w := by
  simp only [parseWithdrawalRow] at h
  by_cases h1 : row.length < 2
  · rw [if_pos h1] at h
    exact Option.noConfusion h
  · simp only [if_neg h1] at h
    by_cases h2 : getStringValue (row.getD 0 Value.null) = ""
    · rw [if_pos h2] at h
      exact Option.noConfusion h
    · simp only [if_neg h2] at h
      by_cases h3 : known (getStringValue (row.getD 0 Value.null)) = true
      · rw [if_pos h3] at h
        exact Option.noConfusion h
      · simp only [if_neg h3] at h
        cases h4 : parseWithdrawalUserID (row.getD 1 Value.null) with
        | none =>
          simp only [h4] at h
          exact Option.noConfusion h
        | some uid =>
          simp only [h4] at h
          by_cases h5 : 4 ≤ row.length
          · simp only [if_pos h5] at h
            by_cases h6 : getFloatValue (row.getD 3 Value.null) ≤ 0
            · rw [if_pos h6] at h
              exact Option.noConfusion h
            · simp only [if_neg h6] at h
              injection h with h
              subst h
              refine ⟨eq_false_of_ne_true h3, ?_⟩
              intro known' hk'
              have hk2 : known' (getStringValue (row.getD 0 Value.null)) = false := hk'
              simp only [parseWithdrawalRow, if_neg h1, if_neg h2,
                if_neg (ne_true_of_eq_false hk2), h4, if_pos h5, if_neg h6]
          · simp only [if_neg h5] at h
            by_cases h5' : 3 ≤ row.length
            · simp only [if_pos h5'] at h
              by_cases h6 : getFloatValue (row.getD 2 Value.null) ≤ 0
              · rw [if_pos h6] at h
                exact Option.noConfusion h
              · simp only [if_neg h6] at h
                injection h with h
                subst h
                refine ⟨eq_false_of_ne_true h3, ?_⟩
                intro known' hk'
                have hk2 : known' (getStringValue (row.getD 0 Value.null)) = false := hk'
                simp only [parseWithdrawalRow, if_neg h1, if_neg h2,
                  if_neg (ne_true_of_eq_false hk2), h4, if_neg h5, if_pos h5', if_neg h6]
            · rw [if_neg h5'] at h
              exact Option.noConfusion h

theorem mem_getNewWithdrawals_not_known {c : CacheState} {rows : List Row} {w : Withdrawal}
    (h : w ∈ GetNewWithdrawals c rows) : w.DealID ∉ c.existingDealIDs := by
  unfold GetNewWithdrawals at h
  rcases List.mem_filterMap.mp h with ⟨row, _, hp⟩
  have hk := (parseWithdrawalRow_transfer hp).1
  intro hmem
  have : (GetExistingDealIDs c).contains w.DealID = true := List.elem_iff.mpr hmem
  rw [hk] at this
  exact Bool.false_ne_true this

theorem getNewWithdrawals_transfer {c₁ c₂ : CacheState} {rows : List Row} {w : Withdrawal}
    (hsub : ∀ d, d ∈ c₁.existingDealIDs → d ∈ c₂.existingDealIDs)
    (h : w ∈ GetNewWithdrawals c₂ rows) : w ∈ GetNewWithdrawals c₁ rows := by
  have hnot : w.DealID ∉ c₁.existingDealIDs := by
    intro hmem
    exact mem_getNewWithdrawals_not_known h (hsub _ hmem)
  unfold GetNewWithdrawals at h ⊢
  rcases List.mem_filterMap.mp h with ⟨row, hrow, hp⟩
  obtain ⟨_, htrans⟩ := parseWithdrawalRow_transfer hp
  refine List.mem_filterMap.mpr ⟨row, hrow, htrans _ ?_⟩
  rw [Bool.eq_false_iff]
  intro hcont
  exact hnot (List.elem_iff.mp hcont)

/-- Claim C1: idempotent ingestion. Over upstream rows whose parsed
withdrawals carry pairwise-distinct deal ids, and starting from a cache
whose by-code index is consistent (the shape every reload/upsert
produces): (1) a second reconciliation pass over the same rows changes
nothing — so exactly one ledger entry and exactly one pending-balance
increment are applied per deal id across the two passes; (2) a single
pass adds at most one ledger entry per deal id; (3) after the first pass,
`GetNewWithdrawals` yields no withdrawal whose deal id is in the
known-deal-id set (every ledgered id having been added to that set by
`CreateReferral`). -/
theorem idempotent_ingestion (rows : List Row) (s : SyncState) (now₁ now₂ : String)
    (d : String) (hcc : codeConsistent s.cache)
    (hnd : ((GetNewWithdrawals s.cache rows).map Withdrawal.DealID).Nodup) :
    syncWithdrawals now₂ rows (syncWithdrawals now₁ rows s) = syncWithdrawals now₁ rows s
    ∧ countDeal d (syncWithdrawals now₁ rows s).ledger ≤ countDeal d s.ledger + 1
    ∧ ∀ w ∈ GetNewWithdrawals (syncWithdrawals now₁ rows s).cache rows,
        w.DealID ∉ (syncWithdrawals now₁ rows s).cache.existingDealIDs := by
  refine ⟨?_, ?_, ?_⟩
  · show processAll now₂ (syncWithdrawals now₁ rows s)
      (GetNewWithdrawals (syncWithdrawals now₁ rows s).cache rows)
      = syncWithdrawals now₁ rows s
    have hsub : ∀ x, x ∈ s.cache.existingDealIDs →
        x ∈ (syncWithdrawals now₁ rows s).cache.existingDealIDs := by
      intro x hx
      exact @processAll_deals_mono now₁ x (GetNewWithdrawals s.cache rows) s hx
    have hcov := @processAll_covers now₁ (GetNewWithdrawals s.cache rows) s hcc
    have hskip : ∀ w ∈ GetNewWithdrawals (syncWithdrawals now₁ rows s).cache rows,
        skipsW (syncWithdrawals now₁ rows s) w := by
      intro w hw
      have hw1 : w ∈ GetNewWithdrawals s.cache rows := getNewWithdrawals_transfer hsub hw
      have hnotin : w.DealID ∉ (syncWithdrawals now₁ rows s).cache.existingDealIDs :=
        mem_getNewWithdrawals_not_known hw
      rcases hcov w hw1 with hin | hsk
      · exact absurd hin hnotin
      · exact hsk
    exact processAll_skip_all _ _ hskip
  · have h1 := @processAll_countDeal now₁ d (GetNewWithdrawals s.cache rows) s
    have h2 := List.nodup_iff_count_le_one.mp hnd d
    have h3 : countDeal d (syncWithdrawals now₁ rows s).ledger
        = countDeal d (processAll now₁ s (GetNewWithdrawals s.cache rows)).ledger := rfl
    omega
  · intro w hw
    exact mem_getNewWithdrawals_not_known hw

/-- Concrete state for the C1 witness: one referrer with code `CODE01`,
one invited user `7` bound to (a lowercase variant of) that code, and an
empty ledger. -/
def c1WitnessState : SyncState :=
  { cache :=
      { referrersByID := [(1, ⟨1, "@u", "CODE01", "", 0, 0, 0⟩)]
        referrersByCode := [("CODE01", ⟨1, "@u", "CODE01", "", 0, 0, 0⟩)]
        invitedByUserID := [(7, ⟨7, "code01"⟩)]
        existingDealIDs := [] }
    refsheet := [[Value.str "1", Value.str "@u", Value.str "CODE01", Value.str "",
      Value.int 0, Value.num 0, Value.num 0]]
    ledger := [] }

/-- Concrete upstream rows for the C1 witness: one withdrawal, deal id
`D1`, user `7`, profit `100`. -/
def c1WitnessRows : List Row := [[Value.str "D1", Value.int 7, Value.num 100]]

/-- Witness for C1 at the concrete inputs: the hypotheses hold and the
conclusion follows by the theorem. -/
theorem idempotent_ingestion_witness :
    codeConsistent c1WitnessState.cache
    ∧ ((GetNewWithdrawals c1WitnessState.cache c1WitnessRows).map Withdrawal.DealID).Nodup
    ∧ (syncWithdrawals "t2" c1WitnessRows (syncWithdrawals "t1" c1WitnessRows c1WitnessState)
        = syncWithdrawals "t1" c1WitnessRows c1WitnessState
      ∧ countDeal "D1" (syncWithdrawals "t1" c1WitnessRows c1WitnessState).ledger
        ≤ countDeal "D1" c1WitnessState.ledger + 1
      ∧ ∀ w ∈ GetNewWithdrawals
          (syncWithdrawals "t1" c1WitnessRows c1WitnessState).cache c1WitnessRows,
          w.DealID ∉
            (syncWithdrawals "t1" c1WitnessRows c1WitnessState).cache.existingDealIDs) :=
  ⟨by unfold codeConsistent; decide, by decide,
    idempotent_ingestion c1WitnessRows c1WitnessState "t1" "t2" "D1"
      (by unfold codeConsistent; decide) (by decide)⟩

/-! ### Bonus computation and profit filter (claim C4) -/

theorem parseWithdrawalRow_profit_pos {known : String → Bool} {w : Withdrawal} {row : Row}
    (h : parseWithdrawalRow known row = some w) : 0 < w.Profit := by
  simp only [parseWithdrawalRow] at h
  by_cases h1 : row.length < 2
  · rw [if_pos h1] at h
    exact Option.noConfusion h
  rw [if_neg h1] at h
  by_cases h2 : getStringValue (row.getD 0 Value.null) = ""
  · rw [if_pos h2] at h
    exact Option.noConfusion h
  rw [if_neg h2] at h
  by_cases h3 : known (getStringValue (row.getD 0 Value.null)) = true
  · rw [if_pos h3] at h
    exact Option.noConfusion h
  rw [if_neg h3] at h
  cases h4 : parseWithdrawalUserID (row.getD 1 Value.null) with
  | none =>
    simp only [h4] at h
    exact Option.noConfusion h
  | some uid =>
    simp only [h4] at h
    by_cases h5 : 4 ≤ row.length
    · simp only [if_pos h5] at h
      by_cases h6 : getFloatValue (row.getD 3 Value.null) ≤ 0
      · rw [if_pos h6] at h
        exact Option.noConfusion h
      · rw [if_neg h6] at h
        injection h with h
        subst h
        exact not_le.mp h6
    · by_cases h5' : 3 ≤ row.length
      · simp only [if_neg h5, if_pos h5'] at h
        by_cases h6 : getFloatValue (row.getD 2 Value.null) ≤ 0
        · rw [if_pos h6] at h
          exact Option.noConfusion h
        · rw [if_neg h6] at h
          injection h with h
          subst h
          exact not_le.mp h6
      · simp only [if_neg h5, if_neg h5'] at h
        exact Option.noConfusion h

theorem mem_getNewWithdrawals_profit_pos {c : CacheState} {rows : List Row} {w : Withdrawal}
    (h : w ∈ GetNewWithdrawals c rows) : 0 < w.Profit := by
  unfold GetNewWithdrawals at h
  rcases List.mem_filterMap.mp h with ⟨row, _, hp⟩
  exact parseWithdrawalRow_profit_pos hp

theorem processAll_new_entries {now : String} :
    ∀ (ws : List Withdrawal) (s : SyncState), (∀ w ∈ ws, 0 < w.Profit) →
      ∀ e ∈ (processAll now s ws).ledger, e ∈ s.ledger ∨
        (e.Bonus = e.Profit * (1 / 10 : Rat) ∧ 0 < e.Profit) := by
  intro ws
  induction ws with
  | nil => intro s _ e he; exact Or.inl he
  | cons w rest ih =>
    intro s hpos e he
    rw [processAll_cons] at he
    rcases ih _ (fun w' hw' => hpos w' (List.mem_cons_of_mem _ hw')) e he with he1 | hprop
    · rcases processWithdrawal_ledger now s w with hl | ⟨e', hd, hp, hb, hl⟩
      · rw [hl] at he1
        exact Or.inl he1
      · rw [hl] at he1
        rcases List.mem_append.mp he1 with he2 | he2
        · exact Or.inl he2
        · right
          have : e = e' := List.mem_singleton.mp he2
          subst this
          constructor
          · rw [hb, hp]
          · rw [hp]
            exact hpos w (List.mem_cons_self _ _)
    · exact Or.inr hprop

/-- Claim C4: every withdrawal the pipeline processes has positive profit
(rows with profit ≤ 0 never leave `GetNewWithdrawals`), and every ledger
entry a pass creates carries `bonus = profit * 1/10` (Go:
`withdrawal.Profit * 0.1`) with that positive profit — so no ledger entry
is ever produced for a non-positive-profit row. -/
theorem bonus_computation (rows : List Row) (now : String) (s : SyncState) :
    (∀ w ∈ GetNewWithdrawals s.cache rows, 0 < w.Profit)
    ∧ ∀ e ∈ (syncWithdrawals now rows s).ledger, e ∉ s.ledger →
        e.Bonus = e.Profit * (1 / 10 : Rat) ∧ 0 < e.Profit := by
  constructor
  · intro w hw
    exact mem_getNewWithdrawals_profit_pos hw
  · intro e he hnew
    have hpos : ∀ w ∈ GetNewWithdrawals s.cache rows, 0 < w.Profit :=
      fun w hw => mem_getNewWithdrawals_profit_pos hw
    rcases processAll_new_entries (GetNewWithdrawals s.cache rows) s hpos e he with h | h
    · exact absurd h hnew
    · exact h

/-- Concrete state for the C4 witness (same shape as the C1 witness but
its own definition): one referrer, one invited binding, empty ledger. -/
def c4State : SyncState :=
  { cache :=
      { referrersByID := [(1, ⟨1, "@u", "CODE01", "", 0, 0, 0⟩)]
        referrersByCode := [("CODE01", ⟨1, "@u", "CODE01", "", 0, 0, 0⟩)]
        invitedByUserID := [(7, ⟨7, "code01"⟩)]
        existingDealIDs := [] }
    refsheet := [[Value.str "1", Value.str "@u", Value.str "CODE01", Value.str "",
      Value.int 0, Value.num 0, Value.num 0]]
    ledger := [] }

/-- Concrete upstream rows for the C4 witness: a profit-100 withdrawal
and a non-positive-profit row that must be filtered out. -/
def c4Rows : List Row :=
  [[Value.str "D1", Value.int 7, Value.num 100],
   [Value.str "D2", Value.int 7, Value.num (-3)]]

/-- Witness for C4: on the concrete state the pass ledgers `D1` with
bonus `10 = 100 * 1/10`, the profit-`-3` row is filtered, and the
theorem's conclusion holds at these inputs. -/
theorem bonus_computation_witness :
    (syncWithdrawals "t" c4Rows c4State).ledger
      = [⟨7, "code01", 100, "D1", 100 * (1 / 10 : Rat), "t"⟩]
    ∧ GetNewWithdrawals c4State.cache c4Rows = [⟨"D1", 7, 100⟩]
    ∧ ((∀ w ∈ GetNewWithdrawals c4State.cache c4Rows, 0 < w.Profit)
      ∧ ∀ e ∈ (syncWithdrawals "t" c4Rows c4State).ledger, e ∉ c4State.ledger →
          e.Bonus = e.Profit * (1 / 10 : Rat) ∧ 0 < e.Profit) :=
  ⟨rfl, by decide, bonus_computation c4Rows "t" c4State⟩

/-! ### Column-shape tolerance (claim C5) -/

/-- Claim C5: a candidate row with fewer than 3 cells yields no
withdrawal; with at least 4 cells the parsed profit is the value at
index 3; with exactly 3 cells the parsed profit is the value at index 2
(the optional column C omitted). -/
theorem column_shape_tolerance (known : String → Bool) (row : Row) :
    (row.length < 3 → parseWithdrawalRow known row = none)
    ∧ (4 ≤ row.length → ∀ w, parseWithdrawalRow known row = some w →
        w.Profit = getFloatValue (row.getD 3 Value.null))
    ∧ (row.length = 3 → ∀ w, parseWithdrawalRow known row = some w →
        w.Profit = getFloatValue (row.getD 2 Value.null)) := by
  refine ⟨?_, ?_, ?_⟩
  · intro hlen
    simp only [parseWithdrawalRow]
    by_cases h1 : row.length < 2
    · rw [if_pos h1]
    · rw [if_neg h1]
      by_cases h2 : getStringValue (row.getD 0 Value.null) = ""
      · rw [if_pos h2]
      · rw [if_neg h2]
        by_cases h3 : known (getStringValue (row.getD 0 Value.null)) = true
        · rw [if_pos h3]
        · rw [if_neg h3]
          cases h4 : parseWithdrawalUserID (row.getD 1 Value.null) with
          | none => simp only [h4]
          | some uid =>
            simp only [h4, if_neg (by omega : ¬ 4 ≤ row.length),
              if_neg (by omega : ¬ 3 ≤ row.length)]
  · intro hlen w h
    simp only [parseWithdrawalRow] at h
    rw [if_neg (by omega : ¬ row.length < 2)] at h
    by_cases h2 : getStringValue (row.getD 0 Value.null) = ""
    · rw [if_pos h2] at h
      exact Option.noConfusion h
    rw [if_neg h2] at h
    by_cases h3 : known (getStringValue (row.getD 0 Value.null)) = true
    · rw [if_pos h3] at h
      exact Option.noConfusion h
    rw [if_neg h3] at h
    cases h4 : parseWithdrawalUserID (row.getD 1 Value.null) with
    | none =>
      simp only [h4] at h
      exact Option.noConfusion h
    | some uid =>
      simp only [h4, if_pos hlen] at h
      by_cases h6 : getFloatValue (row.getD 3 Value.null) ≤ 0
      · rw [if_pos h6] at h
        exact Option.noConfusion h
      · rw [if_neg h6] at h
        injection h with h
        subst h
        rfl
  · intro hlen w h
    simp only [parseWithdrawalRow] at h
    rw [if_neg (by omega : ¬ row.length < 2)] at h
    by_cases h2 : getStringValue (row.getD 0 Value.null) = ""
    · rw [if_pos h2] at h
      exact Option.noConfusion h
    rw [if_neg h2] at h
    by_cases h3 : known (getStringValue (row.getD 0 Value.null)) = true
    · rw [if_pos h3] at h
      exact Option.noConfusion h
    rw [if_neg h3] at h
    cases h4 : parseWithdrawalUserID (row.getD 1 Value.null) with
    | none =>
      simp only [h4] at h
      exact Option.noConfusion h
    | some uid =>
      simp only [h4, if_neg (by omega : ¬ 4 ≤ row.length),
        if_pos (by omega : 3 ≤ row.length)] at h
      by_cases h6 : getFloatValue (row.getD 2 Value.null) ≤ 0
      · rw [if_pos h6] at h
        exact Option.noConfusion h
      · rw [if_neg h6] at h
        injection h with h
        subst h
        rfl

/-- Witness for C5 at concrete rows: a 2-cell row parses to nothing, a
4-cell row takes its profit from index 3, a 3-cell row from index 2. -/
theorem column_shape_tolerance_witness :
    (([Value.str "D", Value.int 7] : Row).length < 3
      ∧ parseWithdrawalRow (fun _ => false) [Value.str "D", Value.int 7] = none)
    ∧ (4 ≤ ([Value.str "D", Value.int 7, Value.str "x", Value.num 5] : Row).length
      ∧ parseWithdrawalRow (fun _ => false)
          [Value.str "D", Value.int 7, Value.str "x", Value.num 5] = some ⟨"D", 7, 5⟩
      ∧ (⟨"D", 7, 5⟩ : Withdrawal).Profit
        = getFloatValue (([Value.str "D", Value.int 7, Value.str "x", Value.num 5]
            : Row).getD 3 Value.null))
    ∧ (([Value.str "D", Value.int 7, Value.num 5] : Row).length = 3
      ∧ parseWithdrawalRow (fun _ => false) [Value.str "D", Value.int 7, Value.num 5]
          = some ⟨"D", 7, 5⟩
      ∧ (⟨"D", 7, 5⟩ : Withdrawal).Profit
        = getFloatValue (([Value.str "D", Value.int 7, Value.num 5] : Row).getD 2 Value.null)) :=
  ⟨⟨by decide,
    (column_shape_tolerance (fun _ => false) [Value.str "D", Value.int 7]).1 (by decide)⟩,
   ⟨by decide, by decide,
    (column_shape_tolerance (fun _ => false)
      [Value.str "D", Value.int 7, Value.str "x", Value.num 5]).2.1 (by decide) _ (by decide)⟩,
   ⟨by decide, by decide,
    (column_shape_tolerance (fun _ => false)
      [Value.str "D", Value.int 7, Value.num 5]).2.2 (by decide) _ (by decide)⟩⟩

/-! ### Referential-gap skip (claim C6) -/

/-- Claim C6: a withdrawal whose user id has no Invited record, or whose
Invited record's code matches no referrer, makes `processWithdrawal`
return success with the entire state — ledger, every pending balance,
all cache maps and sheets — unchanged. -/
theorem referential_gap_skip (now : String) (s : SyncState) (w : Withdrawal) :
    (GetInvitedByUserID s.cache w.UserID = none → processWithdrawal now s w = (s, true))
    ∧ ∀ i, GetInvitedByUserID s.cache w.UserID = some i →
        GetReferrerByCode s.cache i.RefCode = none → processWithdrawal now s w = (s, true) := by
  constructor
  · intro h
    exact processWithdrawal_skip (Or.inl h)
  · intro i hi hr
    exact processWithdrawal_skip (Or.inr ⟨i, hi, hr⟩)

/-- Concrete state for the C6 witness: an invited binding for user 8
whose code has no referrer, and no binding at all for user 9. -/
def c6State : SyncState :=
  { cache :=
      { referrersByID := []
        referrersByCode := []
        invitedByUserID := [(8, ⟨8, "GONE99"⟩)]
        existingDealIDs := [] }
    refsheet := []
    ledger := [] }

/-- Witness for C6: both skip shapes at concrete inputs, via the
theorem. -/
theorem referential_gap_skip_witness :
    (GetInvitedByUserID c6State.cache 9 = none
      ∧ processWithdrawal "t" c6State ⟨"D9", 9, 50⟩ = (c6State, true))
    ∧ (GetInvitedByUserID c6State.cache 8 = some ⟨8, "GONE99"⟩
      ∧ GetReferrerByCode c6State.cache "GONE99" = none
      ∧ processWithdrawal "t" c6State ⟨"D8", 8, 50⟩ = (c6State, true)) :=
  ⟨⟨by decide, (referential_gap_skip "t" c6State ⟨"D9", 9, 50⟩).1 (by decide)⟩,
   ⟨by decide, by decide,
    (referential_gap_skip "t" c6State ⟨"D8", 8, 50⟩).2 ⟨8, "GONE99"⟩ (by decide) (by decide)⟩⟩

/-! ### Code generation protocol (claim C7) -/

theorem genAttempts_spec (supply : Nat → Fin 36) (codeRows : List Row) :
    ∀ (fuel start : Nat),
      (∀ c, genAttempts supply codeRows start fuel = .ok c →
        ∃ i, start ≤ i ∧ i < start + fuel ∧ c = mkCode supply i
          ∧ codeExists c codeRows = false)
      ∧ (∀ msg, genAttempts supply codeRows start fuel = .error msg →
        ∀ i, start ≤ i → i < start + fuel →
          codeExists (mkCode supply i) codeRows = true) := by
  intro fuel
  induction fuel with
  | zero =>
    intro start
    constructor
    · intro c hc
      exact Except.noConfusion hc
    · intro msg _ i h1 h2
      omega
  | succ n ih =>
    intro start
    constructor
    · intro c hc
      rw [genAttempts] at hc
      by_cases hex : codeExists (mkCode supply start) codeRows = true
      · rw [if_pos hex] at hc
        obtain ⟨i, hi1, hi2, hi3, hi4⟩ := (ih (start + 1)).1 c hc
        exact ⟨i, by omega, by omega, hi3, hi4⟩
      · rw [if_neg hex] at hc
        injection hc with hc
        subst hc
        exact ⟨start, Nat.le_refl _, by omega, rfl, eq_false_of_ne_true hex⟩
    · intro msg hc i h1 h2
      rw [genAttempts] at hc
      by_cases hex : codeExists (mkCode supply start) codeRows = true
      · rw [if_pos hex] at hc
        by_cases hi : i = start
        · subst hi
          exact hex
        · exact (ih (start + 1)).2 msg hc i (by omega) (by omega)
      · rw [if_neg hex] at hc
        exact Except.noConfusion hc

theorem mkCode_length (supply : Nat → Fin 36) (i : Nat) : (mkCode supply i).length = 6 := by
  show ((List.range codeLength).map
    (fun j => charset.data.getD (supply (i * codeLength + j)).val 'A')).length = 6
  rw [List.length_map, List.length_range]
  rfl

theorem mkCode_chars (supply : Nat → Fin 36) (i : Nat) :
    ∀ ch ∈ (mkCode supply i).data, ch ∈ charset.data := by
  intro ch hch
  simp only [mkCode, List.mem_map] at hch
  obtain ⟨j, _, rfl⟩ := hch
  have hlt : (supply (i * codeLength + j)).val < charset.data.length :=
    lt_of_lt_of_le (supply _).isLt (by decide)
  rw [List.getD_eq_getElem charset.data 'A' hlt]
  exact List.getElem_mem hlt

/-- Claim C7: `generateUniqueCode` returns either a 6-character code drawn
entirely from the `A`-`Z0`-`9` alphabet for which the live column scan
(`codeExists`, reading the sheet's code column, not the cache) found no
equal cell, or — when each of the 100 attempts' candidates collided — a
generation-exhausted error; it never returns a code its live check
reported as existing. (The random source is a total oracle; transient
store-read failures, which Go surfaces as a third outcome, are outside
the model.) -/
theorem code_generation_protocol (supply : Nat → Fin 36) (codeRows : List Row) :
    (∀ c, generateUniqueCode supply codeRows = .ok c →
      c.length = 6 ∧ (∀ ch ∈ c.data, ch ∈ charset.data) ∧ codeExists c codeRows = false)
    ∧ (∀ msg, generateUniqueCode supply codeRows = .error msg →
      ∀ i < 100, codeExists (mkCode supply i) codeRows = true) := by
  constructor
  · intro c hc
    obtain ⟨i, _, _, rfl, hfalse⟩ :=
      (genAttempts_spec supply codeRows maxAttempts 0).1 c hc
    exact ⟨mkCode_length supply i, mkCode_chars supply i, hfalse⟩
  · intro msg hc i hi
    exact (genAttempts_spec supply codeRows maxAttempts 0).2 msg hc i (Nat.zero_le _) (by
      show i < 0 + maxAttempts
      simp [maxAttempts]
      omega)

/-- Random oracle for the C7 witness: cycles through the alphabet. -/
def c7Supply : Nat → Fin 36 := fun n => ⟨n % 36, Nat.mod_lt n (by decide)⟩

/-- Code column for the C7 witness: the first candidate `ABCDEF` already
exists, so the generator must retry and return the second candidate. -/
def c7Rows : List Row := [[Value.str "ABCDEF"]]

/-- Constant random oracle (always the first alphabet character) for the
exhaustion half of the C7 witness. -/
def c7SupplyZero : Nat → Fin 36 := fun _ => ⟨0, by decide⟩

/-- Code column that collides with every candidate of the constant
oracle. -/
def c7RowsA : List Row := [[Value.str "AAAAAA"]]

/-- Witness for C7: with the cycling oracle the generator skips the
colliding `ABCDEF` and returns `GHIJKL` (6 chars, alphabet-only, not in
the column); with the constant oracle it exhausts its 100 attempts and
every attempted candidate collided. -/
theorem code_generation_protocol_witness :
    (generateUniqueCode c7Supply c7Rows = .ok "GHIJKL"
      ∧ "GHIJKL".length = 6 ∧ (∀ ch ∈ "GHIJKL".data, ch ∈ charset.data)
      ∧ codeExists "GHIJKL" c7Rows = false)
    ∧ (generateUniqueCode c7SupplyZero c7RowsA
        = .error "could not generate a unique code after 100 attempts"
      ∧ ∀ i < 100, codeExists (mkCode c7SupplyZero i) c7RowsA = true) :=
  ⟨⟨rfl, (code_generation_protocol c7Supply c7Rows).1 "GHIJKL" rfl⟩,
   ⟨rfl, (code_generation_protocol c7SupplyZero c7RowsA).2
      "could not generate a unique code after 100 attempts" rfl⟩⟩

/-! ### Balance repair (claims C8 and C10) -/

theorem pendingUpdate_eq_some (i : Nat) (row : Row) (k : Nat) (v : Rat) :
    pendingUpdate i row = some (k, v) ↔
      1 ≤ row.length ∧ getStringValue (row.getD 0 Value.null) ≠ ""
      ∧ rowPending row - rowPaidOut row ≠ rowPending row
      ∧ k = i + 2 ∧ v = rowPending row - rowPaidOut row := by
  simp only [pendingUpdate]
  by_cases h1 : row.length < 1
  · rw [if_pos h1]
    constructor
    · intro h
      exact absurd h (by simp)
    · rintro ⟨h, _⟩
      omega
  · rw [if_neg h1]
    by_cases h2 : getStringValue (row.getD 0 Value.null) = ""
    · rw [if_pos h2]
      constructor
      · intro h
        exact absurd h (by simp)
      · rintro ⟨_, h2', _⟩
        exact absurd h2 h2'
    · rw [if_neg h2]
      by_cases h3 : rowPending row - rowPaidOut row ≠ rowPending row
      · rw [if_pos h3]
        constructor
        · intro h
          injection h with h
          have hk := congrArg Prod.fst h
          have hv := congrArg Prod.snd h
          exact ⟨by omega, h2, h3, hk.symm, hv.symm⟩
        · rintro ⟨_, _, _, rfl, rfl⟩
          rfl
      · rw [if_neg h3]
        constructor
        · intro h
          exact absurd h (by simp)
        · rintro ⟨_, _, h3', _⟩
          exact absurd h3' h3

/-- Claim C8: `UpdatePendingPayouts` collects, over the rows with a
non-empty id cell, exactly the cell writes `(i + 2, pending - paidOut)`
(columns F and G, indices 5 and 6) for which the recomputed value
differs from the stored one, and issues no batch write call when no row
differs. -/
theorem balance_repair_postcondition (rows : List Row) (k : Nat) (v : Rat) :
    ((k, v) ∈ UpdatePendingPayouts rows ↔
      ∃ i row, rows[i]? = some row ∧ k = i + 2 ∧ 1 ≤ row.length
        ∧ getStringValue (row.getD 0 Value.null) ≠ ""
        ∧ v = rowPending row - rowPaidOut row
        ∧ rowPending row - rowPaidOut row ≠ rowPending row)
    ∧ (UpdatePendingPayouts rows = [] → batchWriteIssued rows = false) := by
  constructor
  · rw [UpdatePendingPayouts, List.mem_filterMap]
    constructor
    · rintro ⟨p, hp, hpu⟩
      obtain ⟨i, row⟩ := p
      rw [List.mem_enum_iff_getElem?] at hp
      rw [pendingUpdate_eq_some] at hpu
      obtain ⟨hl, hid, hne, rfl, rfl⟩ := hpu
      exact ⟨i, row, hp, rfl, hl, hid, rfl, hne⟩
    · rintro ⟨i, row, hrow, rfl, hl, hid, rfl, hne⟩
      refine ⟨(i, row), ?_, ?_⟩
      · rw [List.mem_enum_iff_getElem?]
        exact hrow
      · rw [pendingUpdate_eq_some]
        exact ⟨hl, hid, hne, rfl, rfl⟩
  · intro h
    rw [batchWriteIssued, h]
    rfl

/-- Referrer row for the C8 witness: id 1, pending 50 (column F), paid
out 20 (column G). -/
def c8Row : Row := [Value.str "1", Value.str "@u", Value.str "C1", Value.str "",
  Value.int 0, Value.num 50, Value.num 20]

/-- Witness for C8: the 50/20 row is written as `(row 2, 50 - 20)`, and
an empty read produces no write call. -/
theorem balance_repair_postcondition_witness :
    ((2, (50 : Rat) - 20) ∈ UpdatePendingPayouts [c8Row])
    ∧ UpdatePendingPayouts ([] : List Row) = []
    ∧ batchWriteIssued ([] : List Row) = false :=
  ⟨(balance_repair_postcondition [c8Row] 2 ((50 : Rat) - 20)).1.mpr
      ⟨0, c8Row, rfl, rfl, by decide, by decide, rfl,
        fun h => absurd (sub_eq_self.mp h) (by decide)⟩,
   rfl,
   (balance_repair_postcondition [] 2 0).2 rfl⟩

theorem writePendingCell_length (row : Row) (v : Rat) :
    6 ≤ (writePendingCell row v).length := by
  unfold writePendingCell
  rw [List.length_set, List.length_append, List.length_replicate]
  omega

theorem writePendingCell_getD0 (row : Row) (v : Rat) (h : 1 ≤ row.length) :
    (writePendingCell row v).getD 0 Value.null = row.getD 0 Value.null := by
  unfold writePendingCell
  rw [List.getD_eq_getElem?_getD, List.getD_eq_getElem?_getD,
    List.getElem?_set_ne (by omega), List.getElem?_append_left (by omega)]

theorem writePendingCell_pending (row : Row) (v : Rat) :
    rowPending (writePendingCell row v) = v := by
  unfold rowPending
  rw [if_pos (by have := writePendingCell_length row v; omega)]
  unfold writePendingCell
  rw [List.getD_eq_getElem?_getD,
    List.getElem?_set_self (by rw [List.length_append, List.length_replicate]; omega)]
  rfl

/-- Claim C10 (implicit; settles the spec's §9 open question): for every
referrer row with a non-empty id, the per-row repair computation of
`UpdatePendingPayouts` is a no-op precisely when the row's paidOut value
is 0; and for a row with paidOut ≠ 0 whose paidOut cell survives the
first run's write of column F unchanged, the second run subtracts the
same amount again, writing `pending - 2 * paidOut`. -/
theorem balance_repair_double_subtraction (i : Nat) (row : Row)
    (hlen : 1 ≤ row.length) (hid : getStringValue (row.getD 0 Value.null) ≠ "") :
    (pendingUpdate i row = none ↔ rowPaidOut row = 0)
    ∧ (rowPaidOut row ≠ 0 →
        rowPaidOut (writePendingCell row (rowPending row - rowPaidOut row))
          = rowPaidOut row →
        pendingUpdate i row = some (i + 2, rowPending row - rowPaidOut row)
        ∧ pendingUpdate i (writePendingCell row (rowPending row - rowPaidOut row))
          = some (i + 2, rowPending row - 2 * rowPaidOut row)) := by
  have h1 : ¬ row.length < 1 := by omega
  constructor
  · simp only [pendingUpdate]
    rw [if_neg h1, if_neg hid]
    by_cases h3 : rowPending row - rowPaidOut row ≠ rowPending row
    · rw [if_pos h3]
      constructor
      · intro h
        exact absurd h (by simp)
      · intro hq
        exact absurd (by rw [hq]; exact sub_zero _) h3
    · rw [if_neg h3]
      exact ⟨fun _ => sub_eq_self.mp (not_not.mp h3), fun _ => rfl⟩
  · intro hq hkeep
    constructor
    · rw [pendingUpdate_eq_some]
      exact ⟨hlen, hid, fun h => hq (sub_eq_self.mp h), rfl, rfl⟩
    · rw [pendingUpdate_eq_some]
      refine ⟨?_, ?_, ?_, rfl, ?_⟩
      · have := writePendingCell_length row (rowPending row - rowPaidOut row)
        omega
      · rw [writePendingCell_getD0 row _ hlen]
        exact hid
      · rw [writePendingCell_pending, hkeep]
        exact fun h => hq (sub_eq_self.mp h)
      · rw [writePendingCell_pending, hkeep]
        ring

/-- Row for the C10 witness: id 1, pending 50, paid out 20, with the
paidOut cell untouched by the column-F write. -/
def c10Row : Row := [Value.str "1", Value.str "@u", Value.str "C1", Value.str "",
  Value.int 0, Value.num 50, Value.num 20]

/-- Witness for C10 at the 50/20 row: paidOut is nonzero and preserved,
so run one writes `50 - 20` and run two writes `50 - 2 * 20`. -/
theorem balance_repair_double_subtraction_witness :
    1 ≤ c10Row.length
    ∧ getStringValue (c10Row.getD 0 Value.null) ≠ ""
    ∧ rowPaidOut c10Row ≠ 0
    ∧ rowPaidOut (writePendingCell c10Row (rowPending c10Row - rowPaidOut c10Row))
        = rowPaidOut c10Row
    ∧ pendingUpdate 0 c10Row = some (2, rowPending c10Row - rowPaidOut c10Row)
    ∧ pendingUpdate 0 (writePendingCell c10Row (rowPending c10Row - rowPaidOut c10Row))
        = some (2, rowPending c10Row - 2 * rowPaidOut c10Row) :=
  ⟨by decide, by decide, by decide, rfl,
    ((balance_repair_double_subtraction 0 c10Row (by decide) (by decide)).2
      (by decide) rfl).1,
    ((balance_repair_double_subtraction 0 c10Row (by decide) (by decide)).2
      (by decide) rfl).2⟩

/-! ### Reload atomicity (claim C2) -/

theorem referrersLoadStep_invited (acc : CacheState) (row : Row) :
    (referrersLoadStep acc row).invitedByUserID = acc.invitedByUserID := by
  unfold referrersLoadStep
  cases parseReferrerRow row with
  | none => rfl
  | some ref => rfl

theorem referrersLoadStep_deals (acc : CacheState) (row : Row) :
    (referrersLoadStep acc row).existingDealIDs = acc.existingDealIDs := by
  unfold referrersLoadStep
  cases parseReferrerRow row with
  | none => rfl
  | some ref => rfl

theorem invitedLoadStep_deals (acc : CacheState) (row : Row) :
    (invitedLoadStep acc row).existingDealIDs = acc.existingDealIDs := by
  unfold invitedLoadStep
  by_cases h : row.length < 2
  · rw [if_pos h]
  · rw [if_neg h]
    cases parseInvitedIDCell (row.getD 0 .null) with
    | none => rfl
    | some userID => rfl

theorem foldl_referrers_invited :
    ∀ (rows : List Row) (acc : CacheState),
      (rows.foldl referrersLoadStep acc).invitedByUserID = acc.invitedByUserID := by
  intro rows
  induction rows with
  | nil => intro acc; rfl
  | cons r rest ih =>
    intro acc
    rw [List.foldl_cons, ih, referrersLoadStep_invited]

theorem foldl_referrers_deals :
    ∀ (rows : List Row) (acc : CacheState),
      (rows.foldl referrersLoadStep acc).existingDealIDs = acc.existingDealIDs := by
  intro rows
  induction rows with
  | nil => intro acc; rfl
  | cons r rest ih =>
    intro acc
    rw [List.foldl_cons, ih, referrersLoadStep_deals]

theorem foldl_invited_deals :
    ∀ (rows : List Row) (acc : CacheState),
      (rows.foldl invitedLoadStep acc).existingDealIDs = acc.existingDealIDs := by
  intro rows
  induction rows with
  | nil => intro acc; rfl
  | cons r rest ih =>
    intro acc
    rw [List.foldl_cons, ih, invitedLoadStep_deals]

theorem loadReferrersCache_ok_invited (rows : List Row) (c : CacheState) :
    (loadReferrersCache (.ok rows) c).1.invitedByUserID = c.invitedByUserID :=
  foldl_referrers_invited rows _

theorem loadReferrersCache_ok_deals (rows : List Row) (c : CacheState) :
    (loadReferrersCache (.ok rows) c).1.existingDealIDs = c.existingDealIDs :=
  foldl_referrers_deals rows _

theorem loadInvitedCache_ok_deals (rows : List Row) (c : CacheState) :
    (loadInvitedCache (.ok rows) c).1.existingDealIDs = c.existingDealIDs :=
  foldl_invited_deals rows _

theorem LoadCache_error_fr (e : String) (fi fd : Except String (List Row)) (c : CacheState) :
    LoadCache (.error e) fi fd c = (c, some e) := rfl

theorem LoadCache_error_fi (rows : List Row) (e : String) (fd : Except String (List Row))
    (c : CacheState) :
    LoadCache (.ok rows) (.error e) fd c = ((loadReferrersCache (.ok rows) c).1, some e) := rfl

theorem LoadCache_error_fd (rows rows' : List Row) (e : String) (c : CacheState) :
    LoadCache (.ok rows) (.ok rows') (.error e) c
      = ((loadInvitedCache (.ok rows') (loadReferrersCache (.ok rows) c).1).1, some e) := rfl

/-- Cache state before the reload of the C2 counterexample: the previous
snapshot holds the referrer with id 1. -/
def c2PrevCache : CacheState :=
  { referrersByID := [(1, ⟨1, "@old", "OLD111", "", 0, 0, 0⟩)]
    referrersByCode := [("OLD111", ⟨1, "@old", "OLD111", "", 0, 0, 0⟩)]
    invitedByUserID := []
    existingDealIDs := [] }

/-- Counterexample to C2 as stated: the referrers sub-load succeeds with
a fresh snapshot (one row, id 2) and the invited sub-load then fails.
`LoadCache` surfaces the error, but the referrer maps already hold the
new snapshot — the previous cache state is not retained unchanged. -/
theorem loadCache_not_atomic :
    (LoadCache (.ok [[Value.str "2", Value.str "@new", Value.str "NEW222"]])
        (.error "io") (.ok []) c2PrevCache).2 = some "io"
    ∧ (LoadCache (.ok [[Value.str "2", Value.str "@new", Value.str "NEW222"]])
        (.error "io") (.ok []) c2PrevCache).1.referrersByID
      ≠ c2PrevCache.referrersByID := by
  exact ⟨rfl, by decide⟩

/-- Amended C2: each sub-load is individually atomic — a fetch error
leaves the whole state unchanged and aborts the rest of the reload with
the error surfaced, so the maps of the failing and of the *later*
sub-loads retain their previous contents; but the maps of sub-loads that
already succeeded keep the freshly loaded snapshot (a failure of the
invited or deal-id sub-load leaves the referrer maps holding the new
snapshot, not the pre-reload one). -/
theorem loadCache_failure_frontier (fr fi fd : Except String (List Row)) (c : CacheState) :
    (∀ e, fr = .error e → LoadCache fr fi fd c = (c, some e))
    ∧ (∀ rows e, fr = .ok rows → fi = .error e →
        LoadCache fr fi fd c = ((loadReferrersCache (.ok rows) c).1, some e)
        ∧ (LoadCache fr fi fd c).1.invitedByUserID = c.invitedByUserID
        ∧ (LoadCache fr fi fd c).1.existingDealIDs = c.existingDealIDs)
    ∧ (∀ rows rows' e, fr = .ok rows → fi = .ok rows' → fd = .error e →
        (LoadCache fr fi fd c).2 = some e
        ∧ (LoadCache fr fi fd c).1.existingDealIDs = c.existingDealIDs) := by
  refine ⟨?_, ?_, ?_⟩
  · intro e he
    subst he
    exact LoadCache_error_fr e fi fd c
  · intro rows e hr he
    subst hr
    subst he
    rw [LoadCache_error_fi]
    exact ⟨rfl, loadReferrersCache_ok_invited rows c, loadReferrersCache_ok_deals rows c⟩
  · intro rows rows' e hr hi hd
    subst hr
    subst hi
    subst hd
    rw [LoadCache_error_fd]
    refine ⟨rfl, ?_⟩
    rw [loadInvitedCache_ok_deals, loadReferrersCache_ok_deals]

/-- Witness for the amended C2 at concrete fetch results. -/
theorem loadCache_failure_frontier_witness :
    ((.ok [[Value.str "2", Value.str "@new", Value.str "NEW222"]]
        : Except String (List Row)) = .ok [[Value.str "2", Value.str "@new", Value.str "NEW222"]]
    ∧ ((.error "io" : Except String (List Row)) = .error "io"))
    ∧ (LoadCache (.ok [[Value.str "2", Value.str "@new", Value.str "NEW222"]])
          (.error "io") (.ok []) c2PrevCache
        = ((loadReferrersCache (.ok [[Value.str "2", Value.str "@new", Value.str "NEW222"]])
            c2PrevCache).1, some "io")
      ∧ (LoadCache (.ok [[Value.str "2", Value.str "@new", Value.str "NEW222"]])
          (.error "io") (.ok []) c2PrevCache).1.invitedByUserID
        = c2PrevCache.invitedByUserID
      ∧ (LoadCache (.ok [[Value.str "2", Value.str "@new", Value.str "NEW222"]])
          (.error "io") (.ok []) c2PrevCache).1.existingDealIDs
        = c2PrevCache.existingDealIDs) :=
  ⟨⟨rfl, rfl⟩,
   (loadCache_failure_frontier (.ok [[Value.str "2", Value.str "@new", Value.str "NEW222"]])
      (.error "io") (.ok []) c2PrevCache).2.1
     [[Value.str "2", Value.str "@new", Value.str "NEW222"]] "io" rfl rfl⟩

/-! ### Local writes and the cache (claim C3) -/

/-- Empty initial state for the C3 counterexample. -/
def c3State : SyncState :=
  { cache := { referrersByID := [], referrersByCode := [], invitedByUserID := []
               existingDealIDs := [] }
    refsheet := []
    ledger := [] }

/-- Counterexample to C3 as stated: `CreateReferrer` succeeds — it
writes the new referrer's row into the sheet and returns the record with
id 5 — yet `GetReferrerByID 5` on the resulting state still returns
nothing: `CreateReferrer` in the source never touches the cache maps. -/
theorem createReferrer_does_not_upsert :
    (CreateReferrer 5 "@u" "ABC123" c3State).2.ID = 5
    ∧ (CreateReferrer 5 "@u" "ABC123" c3State).1.refsheet.length = 1
    ∧ GetReferrerByID (CreateReferrer 5 "@u" "ABC123" c3State).1.cache 5 = none := by
  exact ⟨rfl, rfl, rfl⟩

/-- Amended C3: `UpdateReferrer` does upsert the cache — after a
successful `UpdateReferrer r` (row found, `r.Code` nonempty) both
`GetReferrerByID r.ID` and `GetReferrerByCode r.Code` return `r` without
a reload — but `CreateReferrer` leaves the cache exactly unchanged, so
the created referrer is invisible to cache lookups until the next reload
or a later `UpdateReferrer`. -/
theorem local_write_upsert (r : Referrer) (s : SyncState)
    (hok : (UpdateReferrer r s).2 = true) (hcode : r.Code ≠ "") :
    GetReferrerByID (UpdateReferrer r s).1.cache r.ID = some r
    ∧ GetReferrerByCode (UpdateReferrer r s).1.cache r.Code = some r
    ∧ ∀ userID username code,
        (CreateReferrer userID username code s).1.cache = s.cache := by
  have hcache : (UpdateReferrer r s).1.cache = upsertReferrerMaps s.cache r := by
    unfold UpdateReferrer at hok ⊢
    cases hfi : findReferrerRowIdx s.refsheet r.ID with
    | none =>
      rw [hfi] at hok
      exact Bool.noConfusion hok
    | some i => rfl
  refine ⟨?_, ?_, fun _ _ _ => rfl⟩
  · rw [hcache]
    unfold GetReferrerByID upsertReferrerMaps
    exact mapLookup_insert_self r.ID r s.cache.referrersByID
  · rw [hcache]
    unfold GetReferrerByCode upsertReferrerMaps
    rw [if_pos hcode]
    exact mapLookup_insert_self (normalizeCode r.Code) r s.cache.referrersByCode

/-- State for the amended-C3 witness: the referrers sheet has a row for
id 1, so the update succeeds; the cache starts empty. -/
def c3UpdState : SyncState :=
  { cache := { referrersByID := [], referrersByCode := [], invitedByUserID := []
               existingDealIDs := [] }
    refsheet := [[Value.str "1", Value.str "@old", Value.str "OLD111"]]
    ledger := [] }

/-- Witness for the amended C3: updating referrer 1 with code `new01`
makes both lookups (id and raw code) return it at once; creating a
referrer changes no cache map. -/
theorem local_write_upsert_witness :
    (UpdateReferrer ⟨1, "@u", "new01", "", 2, 0, 0⟩ c3UpdState).2 = true
    ∧ (⟨1, "@u", "new01", "", 2, 0, 0⟩ : Referrer).Code ≠ ""
    ∧ (GetReferrerByID (UpdateReferrer ⟨1, "@u", "new01", "", 2, 0, 0⟩ c3UpdState).1.cache 1
        = some ⟨1, "@u", "new01", "", 2, 0, 0⟩
      ∧ GetReferrerByCode
          (UpdateReferrer ⟨1, "@u", "new01", "", 2, 0, 0⟩ c3UpdState).1.cache "new01"
        = some ⟨1, "@u", "new01", "", 2, 0, 0⟩
      ∧ ∀ userID username code,
          (CreateReferrer userID username code c3UpdState).1.cache = c3UpdState.cache) :=
  ⟨by decide, by decide,
   local_write_upsert ⟨1, "@u", "new01", "", 2, 0, 0⟩ c3UpdState (by decide) (by decide)⟩

end SSRefBot
